import Mathlib

/-!
Verification of the yuzu kernel-object / GPU command-engine core.

This file gives a shallow embedding of the reference-counted kernel object
(`KAutoObject`), the IPC client port (`KClientPort`), the slab-layout gap
randomization (`init_slab_setup.cpp`), the GPU `MemoryManager`
(`video_core/memory_manager.cpp`) and the Maxwell3D command engine
(`video_core/engines/maxwell_3d.cpp`), and proves or refutes the frozen
specification claims about them.

Conventions of the embedding:
* machine integers (`u32`, `u64`, `s32`) are `Nat`, with an explicit
  `% 2 ^ w` exactly where the source arithmetic can wrap;
* a fatal `ASSERT` / `ASSERT_MSG` / `UNIMPLEMENTED` is modelled by the
  operation returning `none`;
* calls out of the modelled core (the macro interpreter's `Execute`, the
  rasterizer's `NotifyMaxwellRegisterChanged`) are recorded in
  instrumentation lists on the state, so that "exactly one execution with
  these parameters" is a statement about that list.
-/

namespace Kernel

/-- Type descriptor of a kernel object: the class-token bitmask from
`KAutoObject::TypeObj` (`k_auto_object.h`).  The `m_name` debug string of the
source carries no behaviour and is omitted. -/
structure TypeObj where
  m_class_token : Nat
deriving DecidableEq

/-- `TypeObj::IsDerivedFrom` (`k_auto_object.h` line 78): bitwise containment
of the ancestor's token in this object's token. -/
def TypeObj.IsDerivedFrom (self rhs : TypeObj) : Bool :=
  (self.m_class_token ||| rhs.m_class_token) == self.m_class_token

/-- State of one `KAutoObject` (`k_auto_object.h`).  `m_ref_count` is the
atomic `u32` reference count; `class_token` is the token its virtual
`GetTypeObj()` reports; `destroy_count` instruments how many times the
virtual `Destroy()` hook has been invoked. -/
structure KAutoObject where
  m_ref_count : Nat
  class_token : Nat
  destroy_count : Nat
deriving DecidableEq

/-- `KAutoObject::GetTypeObj` for the modelled object. -/
def KAutoObject.GetTypeObj (o : KAutoObject) : TypeObj :=
  ⟨o.class_token⟩

/-- `KAutoObject::IsDerivedFrom` (`k_auto_object.h` line 115). -/
def KAutoObject.IsDerivedFrom (o : KAutoObject) (rhs : TypeObj) : Bool :=
  o.GetTypeObj.IsDerivedFrom rhs

/-- `KAutoObject::DynamicCast<T*>` (`k_auto_object.h` lines 123-133): if the
object's token is derived from the target's static token the pointer itself is
returned (modelled as `some o`), else `nullptr` (`none`).  The target type is
represented by its static `TypeObj`. -/
def KAutoObject.DynamicCast (o : KAutoObject) (target : TypeObj) : Option KAutoObject :=
  if o.IsDerivedFrom target then some o else none

/-- `KAutoObject::Open` (`k_auto_object.h` lines 147-159).  The CAS loop
increments the count only if it is nonzero; a zero count returns `false`
without change.  The loop body's `ASSERT(cur_ref_count < cur_ref_count + 1)`
is a `u32` overflow guard: at `cur_ref_count = 2^32 - 1` the wrapped sum is
`0` and the assertion is a fatal error, modelled as `none`. -/
def KAutoObject.Open (o : KAutoObject) : Option (KAutoObject × Bool) :=
  if o.m_ref_count = 0 then
    some (o, false)
  else if o.m_ref_count = 2 ^ 32 - 1 then
    none
  else
    some ({ o with m_ref_count := o.m_ref_count + 1 }, true)

/-- `KAutoObject::Close` (`k_auto_object.h` lines 161-173).  The CAS loop
asserts `cur_ref_count > 0` (fatal on a zero count, modelled as `none`),
decrements, and invokes `Destroy()` exactly when the post-decrement value is
zero (instrumented by `destroy_count`). -/
def KAutoObject.Close (o : KAutoObject) : Option KAutoObject :=
  if o.m_ref_count = 0 then
    none
  else
    some { o with
           m_ref_count := o.m_ref_count - 1,
           destroy_count :=
             if o.m_ref_count - 1 = 0 then o.destroy_count + 1 else o.destroy_count }

/-- `n` successive `Close` calls, failing if any of them asserts. -/
def KAutoObject.closeN : Nat → KAutoObject → Option KAutoObject
  | 0, o => some o
  | n + 1, o =>
    match o.Close with
    | none => none
    | some o' => closeN n o'

/-- Session counters of a `KClientPort` (`k_client_port.h` lines 54-58):
`num_sessions` and `peak_sessions` are atomic `s32`, `max_sessions` the
capacity fixed by `Initialize`. -/
structure KClientPort where
  num_sessions : Nat
  peak_sessions : Nat
  max_sessions : Nat
deriving DecidableEq

/-- `KClientPort::Initialize` zero-initializes the session counters
(`k_client_port.h` default member initializers) and installs the capacity. -/
def KClientPort.Initialize (max_sessions : Nat) : KClientPort :=
  ⟨0, 0, max_sessions⟩

/-- Modelled from the spec: the body of `KClientPort::CreateSession` lives in
`k_client_port.cpp`, which is not among the sources; only its declaration in
`k_client_port.h` (line 52) is.  Per the spec (§4.4): "`CreateSession` fails
with a capacity error once `num_sessions == max_sessions`" — i.e. a session is
created only while `num_sessions < max_sessions` — "on success it increments
`num_sessions` and updates `peak_sessions = max(peak_sessions, num_sessions)`".
`none` models the capacity error result. -/
def KClientPort.CreateSession (p : KClientPort) : Option KClientPort :=
  if p.num_sessions < p.max_sessions then
    some { p with
           num_sessions := p.num_sessions + 1,
           peak_sessions := max p.peak_sessions (p.num_sessions + 1) }
  else
    none

/-- `KClientPort::GetNumSessions` (`k_client_port.h` line 35). -/
def KClientPort.GetNumSessions (p : KClientPort) : Nat :=
  p.num_sessions

/-- `KClientPort::GetMaxSessions` (`k_client_port.h` line 41). -/
def KClientPort.GetMaxSessions (p : KClientPort) : Nat :=
  p.max_sessions

/-- One step of a sequence of `CreateSession` calls: a failed call reports the
error and leaves the port unchanged. -/
def KClientPort.step (p : KClientPort) : KClientPort :=
  match p.CreateSession with
  | some p' => p'
  | none => p

/-- The port after `k` `CreateSession` calls on a port initialized with the
given capacity. -/
def KClientPort.run (max_sessions : Nat) : Nat → KClientPort
  | 0 => KClientPort.Initialize max_sessions
  | k + 1 => (KClientPort.run max_sessions k).step

end Kernel

namespace Common

/-- `Common::AlignUp` (`common/alignment.h`): round `value` up to the next
multiple of `size` (`value + (size - value % size) % size`). -/
def AlignUp (value size : Nat) : Nat :=
  value + (size - value % size) % size

theorem le_AlignUp (value size : Nat) : value ≤ AlignUp value size :=
  Nat.le_add_right _ _

theorem AlignUp_mod (value size : Nat) (h : 0 < size) : AlignUp value size % size = 0 := by
  unfold AlignUp
  rcases Nat.eq_zero_or_pos (value % size) with h0 | hpos
  · rw [h0, Nat.sub_zero, Nat.mod_self, Nat.add_zero]
    exact h0
  · have hr : value % size < size := Nat.mod_lt _ h
    have h1 : (size - value % size) % size = size - value % size :=
      Nat.mod_eq_of_lt (by omega)
    rw [Nat.add_mod, h1, h1]
    have h2 : value % size + (size - value % size) = size := by omega
    rw [h2, Nat.mod_self]

end Common

namespace Kernel.Init

/-- The inter-slab paddings of `InitializeSlabHeaps`
(`init_slab_setup.cpp` lines 170-172): the first padding is the smallest
sorted gap value, each later one the difference to the previous sorted
value. -/
def diffsFrom : Nat → List Nat → List Nat
  | _, [] => []
  | prev, x :: xs => (x - prev) :: diffsFrom x xs

/-- The inter-slab paddings computed from the raw random draws
(`init_slab_setup.cpp` lines 152-172): one draw per slab from
`GenerateRandomRange(0, total_gap_size)` (inclusive upper bound), sorted
ascending by the in-place insertion sort of lines 164-168 (modelled by
`List.insertionSort`, which computes the same sorted permutation), then
successive differences taken as the actual paddings. -/
def interSlabGaps (draws : List Nat) : List Nat :=
  match List.insertionSort (· ≤ ·) draws with
  | [] => []
  | x :: xs => x :: diffsFrom x xs

/-- Start addresses of the slab regions (`init_slab_setup.cpp` lines 170-187
together with `InitializeSlabHeap`, lines 82-96): before slab `i` the `i`-th
padding is added to the running address, the slab start is the address aligned
up to the slab type's alignment, and the next running address is the start
plus the slab's byte size.  Each slab is a pair `(alignment, size)`. -/
def slabStarts (address : Nat) : List (Nat × Nat) → List Nat → List Nat
  | (al, sz) :: rest, g :: gs =>
    Common.AlignUp (address + g) al ::
      slabStarts (Common.AlignUp (address + g) al + sz) rest gs
  | _, _ => []

/-- The slab regions as `(start, size)` pairs, same recursion as
`slabStarts`. -/
def slabRegions (address : Nat) : List (Nat × Nat) → List Nat → List (Nat × Nat)
  | (al, sz) :: rest, g :: gs =>
    (Common.AlignUp (address + g) al, sz) ::
      slabRegions (Common.AlignUp (address + g) al + sz) rest gs
  | _, _ => []

end Kernel.Init

namespace Tegra

/-- GPU page geometry of `MemoryManager`.  Modelled from the spec: the
constants live in the absent `video_core/memory_manager.h`; the spec (§3,
§4.7) fixes a page-granular sparse table, and the scenario sizes (0x10000
allocations being page-multiples) pin the historical 64 KiB page. -/
def PAGE_BITS : Nat := 16

def PAGE_SIZE : Nat := 2 ^ PAGE_BITS

def PAGE_MASK : Nat := PAGE_SIZE - 1

/-- End of the GPU virtual address space (`MemoryManager::MAX_ADDRESS`,
modelled from the spec/absent header: 1 TiB). -/
def MAX_ADDRESS : Nat := 0x10000000000

/-- Modelled from the spec: `PageStatus::Unmapped`, the in-band `u64`
sentinel the absent header reserves for an unmapped page slot. -/
def PageUnmapped : Nat := 2 ^ 64 - 1

/-- Modelled from the spec: `PageStatus::Allocated`, the in-band `u64`
sentinel for a page that is reserved ("allocated but unbacked"). -/
def PageAllocated : Nat := 2 ^ 64 - 2

/-- A recorded mapping (`MemoryManager::MappedRegion`). -/
structure MappedRegion where
  cpu_addr : Nat
  gpu_addr : Nat
  size : Nat
deriving DecidableEq

/-- The GPU address-space state: the two-level page table of the source
(`PageSlot`, `memory_manager.cpp` lines 108-117) collapsed to one total map
from page index to slot value (fresh blocks are filled with
`PageStatus::Unmapped`, so the collapsed map starts everywhere unmapped),
plus the reverse-lookup region list. -/
structure MemoryManager where
  page_table : Nat → Nat
  mapped_regions : List MappedRegion

/-- A freshly constructed `MemoryManager`: every page slot unmapped, no
recorded regions. -/
def MemoryManager.init : MemoryManager :=
  ⟨fun _ => PageUnmapped, []⟩

/-- `MemoryManager::PageSlot` as a read (`memory_manager.cpp` lines 108-117):
the slot of the page containing `gpu_addr`. -/
def MemoryManager.PageSlot (mm : MemoryManager) (gpu_addr : Nat) : Nat :=
  mm.page_table (gpu_addr / PAGE_SIZE)

/-- Writing through `PageSlot(gpu_addr) = value`. -/
def MemoryManager.setPageSlot (mm : MemoryManager) (gpu_addr value : Nat) : MemoryManager :=
  { mm with
    page_table := fun p => if p = gpu_addr / PAGE_SIZE then value else mm.page_table p }

/-- `MemoryManager::IsPageMapped` (`memory_manager.cpp` lines 104-106). -/
def MemoryManager.IsPageMapped (mm : MemoryManager) (gpu_addr : Nat) : Bool :=
  mm.PageSlot gpu_addr != PageUnmapped

/-- Fuel bound for the `FindFreeBlock` scan: each loop iteration advances
`gpu_addr + free_space` by at least one page, so the loop runs at most
`MAX_ADDRESS / PAGE_SIZE + 1` times before its condition fails. -/
def FindFreeBlockFuel : Nat := MAX_ADDRESS / PAGE_SIZE + 2

/-- The scan loop of `MemoryManager::FindFreeBlock` (`memory_manager.cpp`
lines 61-80), with `align` already rounded up to a page multiple: walk the
space in page strides accumulating `free_space` over unmapped pages, restart
past a mapped page at the re-aligned address, give up (`none`) once the end
of the address space is reached. -/
def MemoryManager.FindFreeBlockAux (mm : MemoryManager) (size align : Nat) :
    Nat → Nat → Nat → Option Nat
  | 0, _, _ => none
  | fuel + 1, gpu_addr, free_space =>
    if gpu_addr + free_space < MAX_ADDRESS then
      if ¬ mm.IsPageMapped (gpu_addr + free_space) then
        if size ≤ free_space + PAGE_SIZE then
          some gpu_addr
        else
          mm.FindFreeBlockAux size align fuel gpu_addr (free_space + PAGE_SIZE)
      else
        mm.FindFreeBlockAux size align fuel
          (Common.AlignUp (gpu_addr + free_space + PAGE_SIZE) align) 0
    else
      none

/-- `MemoryManager::FindFreeBlock` (`memory_manager.cpp` lines 61-80).  The
entry rounds the requested alignment up to a page multiple (the source's
`align = (align + PAGE_MASK) & ~PAGE_MASK` on the power-of-two page size). -/
def MemoryManager.FindFreeBlock (mm : MemoryManager) (size align : Nat) : Option Nat :=
  mm.FindFreeBlockAux size ((align + PAGE_MASK) / PAGE_SIZE * PAGE_SIZE)
    FindFreeBlockFuel 0 0

/-- Number of loop iterations of a `for (offset = 0; offset < size;
offset += PAGE_SIZE)` walk: one per (partially) covered page. -/
def numPages (size : Nat) : Nat :=
  (size + PAGE_SIZE - 1) / PAGE_SIZE

/-- The marking loop of the size/align `AllocateSpace` overload
(`memory_manager.cpp` lines 15-18): each covered page must currently be
unmapped (fatal assertion otherwise) and becomes `PageStatus::Allocated`. -/
def MemoryManager.allocPages : Nat → Nat → MemoryManager → Option MemoryManager
  | _, 0, mm => some mm
  | gpu_addr, n + 1, mm =>
    if mm.PageSlot gpu_addr = PageUnmapped then
      MemoryManager.allocPages (gpu_addr + PAGE_SIZE) n
        (mm.setPageSlot gpu_addr PageAllocated)
    else
      none

/-- `MemoryManager::AllocateSpace(size, align)` (`memory_manager.cpp` lines
11-21): find a free block (fatal assertion — `none` — if the scan fails),
mark its pages allocated, return the base. -/
def MemoryManager.AllocateSpace (size align : Nat) (mm : MemoryManager) :
    Option (Nat × MemoryManager) :=
  match mm.FindFreeBlock size align with
  | none => none
  | some gpu_addr =>
    match MemoryManager.allocPages gpu_addr (numPages size) mm with
    | none => none
    | some mm' => some (gpu_addr, mm')

/-- The mapping loop of `MapBufferEx(cpu_addr, size)` (`memory_manager.cpp`
lines 36-39): each covered page must be unmapped (fatal assertion) and its
slot becomes the `u64` host base `cpu_addr + offset`. -/
def MemoryManager.mapPages (cpu_addr gpu_addr : Nat) :
    Nat → Nat → MemoryManager → Option MemoryManager
  | _, 0, mm => some mm
  | offset, n + 1, mm =>
    if mm.PageSlot (gpu_addr + offset) = PageUnmapped then
      MemoryManager.mapPages cpu_addr gpu_addr (offset + PAGE_SIZE) n
        (mm.setPageSlot (gpu_addr + offset) ((cpu_addr + offset) % 2 ^ 64))
    else
      none

/-- `MemoryManager::MapBufferEx(cpu_addr, size)` (`memory_manager.cpp` lines
32-45): find a page-aligned free block, back each page with the host base,
record the region for reverse lookup, return the GPU base. -/
def MemoryManager.MapBufferEx (cpu_addr size : Nat) (mm : MemoryManager) :
    Option (Nat × MemoryManager) :=
  match mm.FindFreeBlock size PAGE_SIZE with
  | none => none
  | some gpu_addr =>
    match MemoryManager.mapPages cpu_addr gpu_addr 0 (numPages size) mm with
    | none => none
    | some mm' =>
      some (gpu_addr,
        { mm' with mapped_regions := mm'.mapped_regions ++ [⟨cpu_addr, gpu_addr, size⟩] })

/-- `MemoryManager::GpuToCpuAddress` (`memory_manager.cpp` lines 82-91).
Outer `none` models the fatal `ASSERT(base_addr != Unmapped)`; `some none`
the empty optional returned for a merely `Allocated` page; `some (some a)`
the translated host address (`base + (gpu_addr & PAGE_MASK)` in `u64`). -/
def MemoryManager.GpuToCpuAddress (mm : MemoryManager) (gpu_addr : Nat) :
    Option (Option Nat) :=
  let base_addr := mm.PageSlot gpu_addr
  if base_addr = PageUnmapped then
    none
  else if base_addr = PageAllocated then
    some none
  else
    some (some ((base_addr + gpu_addr % PAGE_SIZE) % 2 ^ 64))

/-- `MemoryManager::CpuToGpuAddress` (`memory_manager.cpp` lines 93-102): scan
the recorded regions in order, returning the GPU address of every region
containing the host address (the bound computations in `u64`). -/
def MemoryManager.CpuToGpuAddress (mm : MemoryManager) (cpu_addr : Nat) : List Nat :=
  mm.mapped_regions.filterMap fun region =>
    if region.cpu_addr ≤ cpu_addr ∧ cpu_addr < (region.cpu_addr + region.size) % 2 ^ 64 then
      some ((region.gpu_addr + (cpu_addr - region.cpu_addr)) % 2 ^ 64)
    else
      none

end Tegra

namespace Tegra.Engines

/-- First register id that is actually a macro call (`maxwell_3d.cpp`
line 20). -/
def MacroRegistersStart : Nat := 0xE00

/-- Modelled from the spec: `Regs::NUM_REGS`, the size of the flat register
file, is defined in the absent `maxwell_3d.h` header (historically `0xE36`);
the claims settled here use only that the macro region `[0xE00, NUM_REGS)` is
nonempty and lies inside the file. -/
def NUM_REGS : Nat := 0xE36

/-- Modelled from the spec: `MAXWELL3D_REG_INDEX(const_buffer.cb_data[0])`,
the index of the first constant-buffer data register, comes from the absent
`maxwell_3d.h`; the claims use only that the sixteen `cb_data` registers lie
below the macro threshold. -/
def CB_DATA_INDEX : Nat := 0x8E4

/-- The `regs.const_buffer` register group read and written by
`ProcessCBData` / `ProcessCBBind` (`maxwell_3d.cpp` lines 182-210).  In the
source these registers alias the flat `reg_array` at header-defined offsets;
since the header is absent the group is carried as a named component beside
the flat array (no settled claim observes the aliasing). -/
structure ConstBufferRegs where
  cb_size : Nat
  cb_address_high : Nat
  cb_address_low : Nat
  cb_pos : Nat
deriving DecidableEq

/-- State of the Maxwell3D command engine (`maxwell_3d.h` members as used by
`maxwell_3d.cpp`).  `executed_macro_calls` instruments the calls handed to
`macro_interpreter.Execute` (an external collaborator here), and
`notified_methods` instruments the rasterizer's
`NotifyMaxwellRegisterChanged` callbacks, in order.  `mem` is the flat guest
memory written through `Memory::Write32`, keyed by host byte address. -/
structure Maxwell3D where
  reg_array : Nat → Nat
  const_buffer : ConstBufferRegs
  executing_macro_reg : Nat
  macro_params : List Nat
  uploaded_macros : Nat → Option (List Nat)
  executed_macro_calls : List (Nat × List Nat)
  notified_methods : List Nat
  memory_manager : MemoryManager
  mem : Nat → Nat

/-- `Maxwell3D::SubmitMacroCode` (`maxwell_3d.cpp` lines 25-27): the code is
stored under the method id `entry * 2 + MacroRegistersStart`. -/
def Maxwell3D.SubmitMacroCode (entry : Nat) (code : List Nat) (m : Maxwell3D) : Maxwell3D :=
  { m with
    uploaded_macros := fun k =>
      if k = entry * 2 + MacroRegistersStart then some code else m.uploaded_macros k }

/-- `Regs::const_buffer.BufferAddress()`: the `u64` buffer address assembled
from the high/low register pair. -/
def Maxwell3D.BufferAddress (m : Maxwell3D) : Nat :=
  (m.const_buffer.cb_address_high <<< 32) ||| m.const_buffer.cb_address_low

/-- `Maxwell3D::CallMacroMethod` (`maxwell_3d.cpp` lines 29-37): the macro
must have been uploaded (fatal `ASSERT_MSG` otherwise), the engine resets
`executing_macro` to `0`, and only then is the interpreter executed with the
accumulated parameters (instrumented in `executed_macro_calls`). -/
def Maxwell3D.CallMacroMethod (method : Nat) (parameters : List Nat) (m : Maxwell3D) :
    Option Maxwell3D :=
  match m.uploaded_macros method with
  | none => none
  | some _ =>
    some { m with
           executing_macro_reg := 0,
           executed_macro_calls := m.executed_macro_calls ++ [(method, parameters)] }

/-- `Maxwell3D::ProcessCBData` (`maxwell_3d.cpp` lines 195-210): assert a
buffer is bound (`BufferAddress() != 0`) and that the write stays inside it
(`cb_pos + 4 <= cb_size`), translate the cursor through the memory manager
(a fatal assertion if the page is unmapped; dereferencing the empty optional
of a merely allocated page is likewise modelled as failure), store the value
through `Memory::Write32`, advance `cb_pos` by 4. -/
def Maxwell3D.ProcessCBData (value : Nat) (m : Maxwell3D) : Option Maxwell3D :=
  if m.BufferAddress = 0 then
    none
  else if ¬ m.const_buffer.cb_pos + 4 ≤ m.const_buffer.cb_size then
    none
  else
    match m.memory_manager.GpuToCpuAddress (m.BufferAddress + m.const_buffer.cb_pos) with
    | some (some address) =>
      some { m with
             mem := fun x => if x = address then value else m.mem x,
             const_buffer := { m.const_buffer with cb_pos := m.const_buffer.cb_pos + 4 } }
    | _ => none

/-- The method-dispatch switch of `Maxwell3D::WriteReg` (`maxwell_3d.cpp`
lines 77-135) restricted to the cases a settled claim observes: the sixteen
`cb_data` registers dispatch `ProcessCBData`.  The remaining cases
(`code_address` sanity assert, `cb_bind`, draw dispatch, query completion)
sit at register indices defined only in the absent header and touch state no
settled claim mentions; they are carried as the switch's `default`. -/
def Maxwell3D.sideEffect (method value : Nat) (m : Maxwell3D) : Option Maxwell3D :=
  if CB_DATA_INDEX ≤ method ∧ method < CB_DATA_INDEX + 16 then
    m.ProcessCBData value
  else
    some m

/-- `Maxwell3D::WriteReg` (`maxwell_3d.cpp` lines 39-142), in source order:
assert the method is inside the register file; while a macro is accumulating
assert the method is its argument register (fatal otherwise); methods at or
above `MacroRegistersStart` run the macro path — an accumulation starting
write must be an even "entry" register (fatal otherwise), the value is
appended to `macro_params`, and a packet reporting zero remaining parameters
flushes the accumulated list through `CallMacroMethod` — and return before
any register-file update; methods below the threshold store the value in
`reg_array`, dispatch the method-specific side effect, then notify the
rasterizer of the changed register. -/
def Maxwell3D.WriteReg (method value remaining_params : Nat) (m : Maxwell3D) :
    Option Maxwell3D :=
  if NUM_REGS ≤ method then
    none
  else if m.executing_macro_reg ≠ 0 ∧ method ≠ m.executing_macro_reg + 1 then
    none
  else if MacroRegistersStart ≤ method then
    if m.executing_macro_reg = 0 ∧ method % 2 ≠ 0 then
      none
    else
      let m0 :=
        if m.executing_macro_reg = 0 then { m with executing_macro_reg := method } else m
      let m1 := { m0 with macro_params := m0.macro_params ++ [value] }
      if remaining_params = 0 then
        Maxwell3D.CallMacroMethod m1.executing_macro_reg m1.macro_params
          { m1 with macro_params := [] }
      else
        some m1
  else
    let m1 := { m with reg_array := fun i => if i = method then value else m.reg_array i }
    match Maxwell3D.sideEffect method value m1 with
    | none => none
    | some m2 => some { m2 with notified_methods := m2.notified_methods ++ [method] }

/-- The argument writes of one macro call: each write targets the argument
register `entry + 1` and reports the number of writes still to come, the last
one reporting zero. -/
def Maxwell3D.runArgWrites (entry : Nat) : List Nat → Maxwell3D → Option Maxwell3D
  | [], m => some m
  | v :: vs, m =>
    match Maxwell3D.WriteReg (entry + 1) v vs.length m with
    | none => none
    | some m' => Maxwell3D.runArgWrites entry vs m'

/-- A full macro call packet: the write to the even entry register carrying
the first value, followed by the argument writes, the last write of the
packet reporting zero remaining parameters. -/
def Maxwell3D.runMacroCall (entry v0 : Nat) (vs : List Nat) (m : Maxwell3D) :
    Option Maxwell3D :=
  match Maxwell3D.WriteReg entry v0 vs.length m with
  | some m1 => Maxwell3D.runArgWrites entry vs m1
  | none => none

/-- A sequence of constant-buffer data writes (`ProcessCBData` once per
value), failing as soon as one write asserts. -/
def Maxwell3D.runCBWrites : List Nat → Maxwell3D → Option Maxwell3D
  | [], m => some m
  | v :: vs, m =>
    match Maxwell3D.ProcessCBData v m with
    | some m' => Maxwell3D.runCBWrites vs m'
    | none => none

end Tegra.Engines

/-! ## Concrete instances used by the scenario theorems -/

namespace Tegra.Engines

/-- An idle engine with a two-instruction macro uploaded at entry register
`0xE00` and nothing else configured. -/
def c3Engine : Maxwell3D :=
  { reg_array := fun _ => 0
    const_buffer := ⟨0, 0, 0, 0⟩
    executing_macro_reg := 0
    macro_params := []
    uploaded_macros := fun k => if k = 0xE00 then some [1, 2] else none
    executed_macro_calls := []
    notified_methods := []
    memory_manager := MemoryManager.init
    mem := fun _ => 0 }

/-- An engine in the middle of accumulating a macro call to entry `0xE00`,
one parameter already pending. -/
def c4Engine : Maxwell3D :=
  { reg_array := fun _ => 0
    const_buffer := ⟨0, 0, 0, 0⟩
    executing_macro_reg := 0xE00
    macro_params := [10]
    uploaded_macros := fun k => if k = 0xE00 then some [1] else none
    executed_macro_calls := []
    notified_methods := []
    memory_manager := MemoryManager.init
    mem := fun _ => 0 }

/-- An engine accumulating a macro call to entry `0xE02` with two pending
parameters. -/
def c4WitEngine : Maxwell3D :=
  { reg_array := fun _ => 0
    const_buffer := ⟨0, 0, 0, 0⟩
    executing_macro_reg := 0xE02
    macro_params := [1, 2]
    uploaded_macros := fun k => if k = 0xE02 then some [] else none
    executed_macro_calls := []
    notified_methods := []
    memory_manager := MemoryManager.init
    mem := fun _ => 0 }

/-- An idle engine with a macro uploaded at entry `0xE02`. -/
def c10Engine : Maxwell3D :=
  { reg_array := fun _ => 0
    const_buffer := ⟨0, 0, 0, 0⟩
    executing_macro_reg := 0
    macro_params := []
    uploaded_macros := fun k => if k = 0xE02 then some [3] else none
    executed_macro_calls := []
    notified_methods := []
    memory_manager := MemoryManager.init
    mem := fun _ => 0 }

/-- The engine of `c10Engine` after the macro-entry write
`WriteReg(0xE02, 5, 3)`: accumulation started, nothing else touched. -/
def c10After : Maxwell3D :=
  { c10Engine with executing_macro_reg := 0xE02, macro_params := [5] }

/-- An address space with GPU page 0 reserved by `AllocateSpace` and the
64 KiB at GPU `0x10000` backed by host base `0x5000` via `MapBufferEx`. -/
def c7MM : MemoryManager :=
  match MemoryManager.AllocateSpace 0x10000 1 MemoryManager.init with
  | some p =>
    match MemoryManager.MapBufferEx 0x5000 0x10000 p.2 with
    | some q => q.2
    | none => MemoryManager.init
  | none => MemoryManager.init

/-- An engine whose constant-buffer registers bind the buffer at GPU address
`0x10000` (host `0x5000`) with size `0x40` and cursor `0`. -/
def c7Engine : Maxwell3D :=
  { reg_array := fun _ => 0
    const_buffer := { cb_size := 0x40, cb_address_high := 0, cb_address_low := 0x10000,
                      cb_pos := 0 }
    executing_macro_reg := 0
    macro_params := []
    uploaded_macros := fun _ => none
    executed_macro_calls := []
    notified_methods := []
    memory_manager := c7MM
    mem := fun _ => 0 }

/-- Sixteen distinct values to write into the constant buffer. -/
def c7Values : List Nat :=
  (List.range 16).map (fun k => 100 + k)

/-- The engine after the sixteen constant-buffer data writes. -/
def c7Final : Option Maxwell3D :=
  Maxwell3D.runCBWrites c7Values c7Engine

/-- The engine of `c7Engine` but with the cursor already at byte 8. -/
def c7WitEngine : Maxwell3D :=
  { c7Engine with const_buffer := { c7Engine.const_buffer with cb_pos := 8 } }

/-- The engine of `c7Engine` with the cursor at byte `0x3E`, where one more
4-byte write would cross the declared size `0x40`. -/
def c7BadEngine : Maxwell3D :=
  { c7Engine with const_buffer := { c7Engine.const_buffer with cb_pos := 0x3E } }

end Tegra.Engines

namespace Tegra

/-- `MapBufferEx` of a full page at the host base `2^64 - 2` — the numeric
value of the `PageStatus::Allocated` sentinel — on a fresh address space. -/
def c6CexMapped : Option (Nat × MemoryManager) :=
  MemoryManager.MapBufferEx (2 ^ 64 - 2) 0x10000 MemoryManager.init

/-- The address space after `MapBufferEx(0x5000, 0x10000)` on a fresh
manager. -/
def c6WitMM : MemoryManager :=
  match MemoryManager.MapBufferEx 0x5000 0x10000 MemoryManager.init with
  | some p => p.2
  | none => MemoryManager.init

/-- First `AllocateSpace(0x10000, 16)` on a fresh address space. -/
def c8First : Option (Nat × MemoryManager) :=
  MemoryManager.AllocateSpace 0x10000 16 MemoryManager.init

/-- Second `AllocateSpace(0x10000, 16)`, on the state left by the first. -/
def c8Second : Option (Nat × MemoryManager) :=
  c8First.bind fun p => MemoryManager.AllocateSpace 0x10000 16 p.2

end Tegra

/-! ## Helper lemmas -/

namespace Kernel

theorem closeN_of_lt (k : Nat) :
    ∀ o : KAutoObject, k < o.m_ref_count →
      KAutoObject.closeN k o = some { o with m_ref_count := o.m_ref_count - k } := by
  induction k with
  | zero => intro o _; simp [KAutoObject.closeN]
  | succ k ih =>
    intro o hk
    have hpos : o.m_ref_count ≠ 0 := by omega
    have hne : o.m_ref_count - 1 ≠ 0 := by omega
    simp only [KAutoObject.closeN, KAutoObject.Close, if_neg hpos, if_neg hne]
    rw [ih _ (show k < o.m_ref_count - 1 by omega)]
    have h3 : o.m_ref_count - 1 - k = o.m_ref_count - (k + 1) := by omega
    simp [h3]

theorem closeN_exact (n : Nat) :
    ∀ o : KAutoObject, o.m_ref_count = n → 0 < n →
      KAutoObject.closeN n o
        = some { o with m_ref_count := 0, destroy_count := o.destroy_count + 1 } := by
  induction n with
  | zero => omega
  | succ n ih =>
    intro o hc _
    have hpos : o.m_ref_count ≠ 0 := by omega
    simp only [KAutoObject.closeN, KAutoObject.Close, if_neg hpos]
    rcases Nat.eq_zero_or_pos n with hn | hn
    · subst hn
      have h1 : o.m_ref_count - 1 = 0 := by omega
      simp [h1, KAutoObject.closeN]
    · have h1 : o.m_ref_count - 1 ≠ 0 := by omega
      rw [if_neg h1, ih _ (by simpa using by omega) hn]

theorem run_invariant (m : Nat) :
    ∀ k, (KClientPort.run m k).max_sessions = m ∧ (KClientPort.run m k).num_sessions ≤ m := by
  intro k
  induction k with
  | zero => exact ⟨rfl, Nat.zero_le m⟩
  | succ k ih =>
    obtain ⟨hmax, hnum⟩ := ih
    simp only [KClientPort.run, KClientPort.step]
    cases hcs : (KClientPort.run m k).CreateSession with
    | none => exact ⟨hmax, hnum⟩
    | some p' =>
      unfold KClientPort.CreateSession at hcs
      by_cases hlt :
          (KClientPort.run m k).num_sessions < (KClientPort.run m k).max_sessions
      · rw [if_pos hlt] at hcs
        cases hcs
        exact ⟨hmax, by simp; omega⟩
      · rw [if_neg hlt] at hcs
        cases hcs

end Kernel

namespace Tegra

theorem PAGE_SIZE_pos : 0 < PAGE_SIZE := by decide

/-- Invariant of the `FindFreeBlock` scan at page-multiple alignment: a
returned base is page-aligned and the run it found stops before the end of
the address space. -/
theorem FindFreeBlockAux_spec (mm : MemoryManager) (size : Nat) :
    ∀ (fuel gpu_addr free_space a : Nat),
      gpu_addr % PAGE_SIZE = 0 → free_space % PAGE_SIZE = 0 →
      mm.FindFreeBlockAux size PAGE_SIZE fuel gpu_addr free_space = some a →
      a % PAGE_SIZE = 0 ∧ a + size < MAX_ADDRESS + PAGE_SIZE := by
  intro fuel
  induction fuel with
  | zero =>
    intro g fs a _ _ h
    simp only [MemoryManager.FindFreeBlockAux] at h
    exact Option.noConfusion h
  | succ fuel ih =>
    intro g fs a hg hfs h
    simp only [MemoryManager.FindFreeBlockAux] at h
    split at h
    · split at h
      · split at h
        · injection h with h
          subst h
          refine ⟨hg, by omega⟩
        · have hfs' : (fs + PAGE_SIZE) % PAGE_SIZE = 0 := by
            simp [Nat.add_mod, hfs]
          exact ih g (fs + PAGE_SIZE) a hg hfs' h
      · exact ih _ 0 a (Common.AlignUp_mod _ PAGE_SIZE PAGE_SIZE_pos) (Nat.zero_mod _) h
    · exact Option.noConfusion h

/-- Spec of the `MapBufferEx` mapping loop: the region list is untouched,
page slots below the walked range are untouched, and the `j`-th walked page
slot holds the (`u64`) host base `cpu_addr + offset + j * PAGE_SIZE`. -/
theorem mapPages_spec (cpu_addr gpu_addr : Nat) :
    ∀ (n offset : Nat) (mm mmP : MemoryManager),
      MemoryManager.mapPages cpu_addr gpu_addr offset n mm = some mmP →
      mmP.mapped_regions = mm.mapped_regions ∧
      (∀ p, p < (gpu_addr + offset) / PAGE_SIZE → mmP.page_table p = mm.page_table p) ∧
      (∀ j, j < n → mmP.page_table ((gpu_addr + offset) / PAGE_SIZE + j)
          = (cpu_addr + offset + j * PAGE_SIZE) % 2 ^ 64) := by
  intro n
  induction n with
  | zero =>
    intro offset mm mmP h
    simp only [MemoryManager.mapPages] at h
    injection h with h
    subst h
    exact ⟨rfl, fun _ _ => rfl, fun j hj => absurd hj (by omega)⟩
  | succ n ih =>
    intro offset mm mmP h
    simp only [MemoryManager.mapPages] at h
    split at h
    · obtain ⟨hreg, hbelow, hrange⟩ := ih (offset + PAGE_SIZE) _ mmP h
      have hdiv : (gpu_addr + (offset + PAGE_SIZE)) / PAGE_SIZE
          = (gpu_addr + offset) / PAGE_SIZE + 1 := by
        rw [← Nat.add_assoc, Nat.add_div_right _ PAGE_SIZE_pos]
      refine ⟨hreg, ?_, ?_⟩
      · intro p hp
        rw [hbelow p (by omega)]
        simp [MemoryManager.setPageSlot,
          (show p ≠ (gpu_addr + offset) / PAGE_SIZE by omega)]
      · intro j hj
        cases j with
        | zero =>
          rw [Nat.add_zero, hbelow _ (by omega)]
          simp [MemoryManager.setPageSlot]
        | succ j =>
          have hr := hrange j (by omega)
          rw [hdiv] at hr
          have ha1 : (gpu_addr + offset) / PAGE_SIZE + (j + 1)
              = (gpu_addr + offset) / PAGE_SIZE + 1 + j := by omega
          have ha2 : cpu_addr + offset + (j + 1) * PAGE_SIZE
              = cpu_addr + (offset + PAGE_SIZE) + j * PAGE_SIZE := by ring
          rw [ha1, ha2]
          exact hr
    · exact Option.noConfusion h

/-- `MapBufferEx` as a composition of its three steps. -/
theorem MapBufferEx_eq (cpu_addr size : Nat) (mm : MemoryManager) :
    MemoryManager.MapBufferEx cpu_addr size mm
      = (mm.FindFreeBlock size PAGE_SIZE).bind fun g =>
          (MemoryManager.mapPages cpu_addr g 0 (numPages size) mm).map fun mmP =>
            (g, { mmP with mapped_regions := mmP.mapped_regions ++ [⟨cpu_addr, g, size⟩] }) := by
  cases h1 : mm.FindFreeBlock size PAGE_SIZE with
  | none => simp [MemoryManager.MapBufferEx, h1]
  | some g =>
    cases h2 : MemoryManager.mapPages cpu_addr g 0 (numPages size) mm <;>
      simp [MemoryManager.MapBufferEx, h1, h2]

end Tegra

namespace Tegra.Engines

theorem MacroRegistersStart_pos (e : Nat) (he : MacroRegistersStart ≤ e) : e ≠ 0 := by
  unfold MacroRegistersStart at he
  omega

/-- While a macro is accumulating, a write to its argument register with a
nonzero remaining-parameter count appends the value to the pending list. -/
theorem writeArg_append (m : Maxwell3D) (e v r : Nat)
    (he : m.executing_macro_reg = e) (hne0 : e ≠ 0)
    (hm1 : MacroRegistersStart ≤ e + 1) (hlt : e + 1 < NUM_REGS) (hr : r ≠ 0) :
    Maxwell3D.WriteReg (e + 1) v r m
      = some { m with macro_params := m.macro_params ++ [v] } := by
  have h1 : ¬ NUM_REGS ≤ e + 1 := by omega
  simp only [Maxwell3D.WriteReg, if_neg h1, he, hne0, if_pos hm1, hr]
  simp [he]

/-- While a macro is accumulating, a write to its argument register with a
zero remaining-parameter count flushes the pending list (with this value
appended) to the uploaded macro, resetting the engine to idle. -/
theorem writeArg_zero_flush (m : Maxwell3D) (e v : Nat) (code : List Nat)
    (he : m.executing_macro_reg = e) (hne0 : e ≠ 0)
    (hm1 : MacroRegistersStart ≤ e + 1) (hlt : e + 1 < NUM_REGS)
    (hup : m.uploaded_macros e = some code) :
    Maxwell3D.WriteReg (e + 1) v 0 m
      = some { m with
               executing_macro_reg := 0
               macro_params := []
               executed_macro_calls :=
                 m.executed_macro_calls ++ [(e, m.macro_params ++ [v])] } := by
  have h1 : ¬ NUM_REGS ≤ e + 1 := by omega
  simp only [Maxwell3D.WriteReg, if_neg h1, he, hne0, if_pos hm1]
  simp [Maxwell3D.CallMacroMethod, he, hup, hne0]

/-- While a macro is accumulating, a write to any method other than the
argument register is a fatal assertion. -/
theorem writeOther_rejected (m : Maxwell3D) (meth v r : Nat)
    (hne0 : m.executing_macro_reg ≠ 0) (hne : meth ≠ m.executing_macro_reg + 1) :
    Maxwell3D.WriteReg meth v r m = none := by
  by_cases h1 : NUM_REGS ≤ meth
  · simp only [Maxwell3D.WriteReg, if_pos h1]
  · simp only [Maxwell3D.WriteReg, if_neg h1]
    rw [if_pos ⟨hne0, hne⟩]

/-- With the engine idle, a write to an even macro-entry register with a
nonzero remaining-parameter count starts accumulation. -/
theorem writeEntry_start (m : Maxwell3D) (e v0 r : Nat)
    (h0 : m.executing_macro_reg = 0) (he : MacroRegistersStart ≤ e)
    (heven : e % 2 = 0) (hN : e < NUM_REGS) (hr : r ≠ 0) :
    Maxwell3D.WriteReg e v0 r m
      = some { m with
               executing_macro_reg := e
               macro_params := m.macro_params ++ [v0] } := by
  have h1 : ¬ NUM_REGS ≤ e := by omega
  simp only [Maxwell3D.WriteReg, if_neg h1, h0, if_pos he, heven, hr]
  simp

/-- With the engine idle, a write to an even macro-entry register already
reporting zero remaining parameters immediately executes the uploaded macro
with this single value. -/
theorem writeEntry_immediate (m : Maxwell3D) (e v0 : Nat) (code : List Nat)
    (h0 : m.executing_macro_reg = 0) (he : MacroRegistersStart ≤ e)
    (heven : e % 2 = 0) (hN : e < NUM_REGS)
    (hup : m.uploaded_macros e = some code) :
    Maxwell3D.WriteReg e v0 0 m
      = some { m with
               executing_macro_reg := 0
               macro_params := []
               executed_macro_calls :=
                 m.executed_macro_calls ++ [(e, m.macro_params ++ [v0])] } := by
  have h1 : ¬ NUM_REGS ≤ e := by omega
  simp only [Maxwell3D.WriteReg, if_neg h1, h0, if_pos he, heven]
  simp [Maxwell3D.CallMacroMethod, hup]

theorem runArgWrites_cons (e v : Nat) (vs : List Nat) (m : Maxwell3D) :
    Maxwell3D.runArgWrites e (v :: vs) m
      = (Maxwell3D.WriteReg (e + 1) v vs.length m).bind (Maxwell3D.runArgWrites e vs) := by
  cases h : Maxwell3D.WriteReg (e + 1) v vs.length m <;>
    simp [Maxwell3D.runArgWrites, h]

/-- Accumulating from a state already executing macro `e`, a nonempty run of
argument writes (the last reporting zero remaining parameters) executes the
macro exactly once, with the pending parameters followed by the written
values, and leaves the engine idle. -/
theorem runArgWrites_spec (e : Nat) (code : List Nat) :
    ∀ (vs : List Nat) (m : Maxwell3D), vs ≠ [] →
      m.executing_macro_reg = e → MacroRegistersStart ≤ e → e + 1 < NUM_REGS →
      m.uploaded_macros e = some code →
      Maxwell3D.runArgWrites e vs m
        = some { m with
                 executing_macro_reg := 0
                 macro_params := []
                 executed_macro_calls :=
                   m.executed_macro_calls ++ [(e, m.macro_params ++ vs)] } := by
  intro vs
  induction vs with
  | nil => intro m h; exact absurd rfl h
  | cons v vs ih =>
    intro m _ he he0 hlt hup
    cases vs with
    | nil =>
      simp only [Maxwell3D.runArgWrites, List.length_nil]
      rw [writeArg_zero_flush m e v code he (MacroRegistersStart_pos e he0)
        (Nat.le_succ_of_le he0) hlt hup]
    | cons w ws =>
      rw [runArgWrites_cons, List.length_cons,
        writeArg_append m e v (ws.length + 1) he (MacroRegistersStart_pos e he0)
          (Nat.le_succ_of_le he0) hlt (by omega),
        Option.some_bind,
        ih _ (by simp) (by simp [he]) he0 hlt (by simpa using hup)]
      simp

/-- A method outside the register file is a fatal assertion. -/
theorem writeReg_oob_none (m : Maxwell3D) (method v r : Nat) (h : NUM_REGS ≤ method) :
    Maxwell3D.WriteReg method v r m = none := by
  simp only [Maxwell3D.WriteReg, if_pos h]

/-- With the engine idle, starting a macro call on an odd (argument) register
is a fatal assertion. -/
theorem writeOddIdle_rejected (m : Maxwell3D) (method v r : Nat)
    (h0 : m.executing_macro_reg = 0) (hm : MacroRegistersStart ≤ method)
    (hodd : method % 2 ≠ 0) (hN : method < NUM_REGS) :
    Maxwell3D.WriteReg method v r m = none := by
  have h1 : ¬ NUM_REGS ≤ method := by omega
  simp only [Maxwell3D.WriteReg, if_neg h1, h0, if_pos hm]
  simp [hodd]

/-- With the engine idle, an even entry write that already reports zero
remaining parameters is a fatal assertion when no macro was uploaded for that
entry. -/
theorem writeEntryNoMacro_none (m : Maxwell3D) (e v0 : Nat)
    (h0 : m.executing_macro_reg = 0) (he : MacroRegistersStart ≤ e)
    (heven : e % 2 = 0) (hN : e < NUM_REGS) (hup : m.uploaded_macros e = none) :
    Maxwell3D.WriteReg e v0 0 m = none := by
  have h1 : ¬ NUM_REGS ≤ e := by omega
  simp only [Maxwell3D.WriteReg, if_neg h1, h0, if_pos he, heven]
  simp [Maxwell3D.CallMacroMethod, hup]

/-- While accumulating, the flushing argument write is a fatal assertion when
no macro was uploaded for the entry. -/
theorem writeArgNoMacro_none (m : Maxwell3D) (e v : Nat)
    (he : m.executing_macro_reg = e) (hne0 : e ≠ 0)
    (hm1 : MacroRegistersStart ≤ e + 1) (hlt : e + 1 < NUM_REGS)
    (hup : m.uploaded_macros e = none) :
    Maxwell3D.WriteReg (e + 1) v 0 m = none := by
  have h1 : ¬ NUM_REGS ≤ e + 1 := by omega
  simp only [Maxwell3D.WriteReg, if_neg h1, he, hne0, if_pos hm1]
  simp [Maxwell3D.CallMacroMethod, he, hup, hne0]

theorem runMacroCall_eq (entry v0 : Nat) (vs : List Nat) (m : Maxwell3D) :
    Maxwell3D.runMacroCall entry v0 vs m
      = (Maxwell3D.WriteReg entry v0 vs.length m).bind (Maxwell3D.runArgWrites entry vs) := by
  cases h : Maxwell3D.WriteReg entry v0 vs.length m <;>
    simp [Maxwell3D.runMacroCall, h]

/-- Frame of the method-dispatch switch: no switch case touches the register
array, the notification log, the macro machinery or the uploaded macro
store. -/
theorem sideEffect_frame (method value : Nat) (m m2 : Maxwell3D)
    (h : Maxwell3D.sideEffect method value m = some m2) :
    m2.reg_array = m.reg_array ∧ m2.notified_methods = m.notified_methods ∧
    m2.executing_macro_reg = m.executing_macro_reg ∧
    m2.macro_params = m.macro_params ∧
    m2.executed_macro_calls = m.executed_macro_calls ∧
    m2.uploaded_macros = m.uploaded_macros := by
  unfold Maxwell3D.sideEffect at h
  split at h
  · unfold Maxwell3D.ProcessCBData at h
    split at h
    · exact Option.noConfusion h
    · split at h
      · exact Option.noConfusion h
      · split at h
        · injection h with h
          subst h
          exact ⟨rfl, rfl, rfl, rfl, rfl, rfl⟩
        · exact Option.noConfusion h
  · injection h with h
    subst h
    exact ⟨rfl, rfl, rfl, rfl, rfl, rfl⟩

end Tegra.Engines

/-! ## Claim theorems -/

namespace Kernel.Init

theorem diffsFrom_sum_le (budget : Nat) :
    ∀ (xs : List Nat) (prev : Nat), List.Chain (· ≤ ·) prev xs →
      (∀ y ∈ xs, y ≤ budget) → prev ≤ budget →
      prev + (diffsFrom prev xs).sum ≤ budget := by
  intro xs
  induction xs with
  | nil =>
    intro prev _ _ h
    simpa [diffsFrom] using h
  | cons x xs ih =>
    intro prev hchain hmem hprev
    cases hchain with
    | cons hle htail =>
      simp only [diffsFrom, List.sum_cons]
      have hx := ih x htail (fun y hy => hmem y (List.mem_cons_of_mem _ hy))
        (hmem x (List.mem_cons_self _ _))
      omega

theorem interSlabGaps_sum_le (budget : Nat) (draws : List Nat)
    (hdraw : ∀ d ∈ draws, d ≤ budget) :
    (interSlabGaps draws).sum ≤ budget := by
  unfold interSlabGaps
  have hperm := List.perm_insertionSort (· ≤ ·) draws
  have hsorted := List.sorted_insertionSort (· ≤ ·) draws
  cases hs : List.insertionSort (· ≤ ·) draws with
  | nil => simp
  | cons x xs =>
    rw [hs] at hperm hsorted
    have hmem : ∀ y ∈ x :: xs, y ≤ budget := fun y hy => hdraw y (hperm.mem_iff.mp hy)
    have hchain : List.Chain (· ≤ ·) x xs := List.chain_iff_pairwise.mpr hsorted
    simp only [List.sum_cons]
    exact diffsFrom_sum_le budget xs x hchain
      (fun y hy => hmem y (List.mem_cons_of_mem _ hy)) (hmem x (List.mem_cons_self _ _))

theorem diffsFrom_length : ∀ (xs : List Nat) (prev : Nat), (diffsFrom prev xs).length = xs.length := by
  intro xs
  induction xs with
  | nil => intro prev; simp [diffsFrom]
  | cons x xs ih => intro prev; simp [diffsFrom, ih]

theorem interSlabGaps_length (draws : List Nat) :
    (interSlabGaps draws).length = draws.length := by
  unfold interSlabGaps
  have hlen := (List.perm_insertionSort (· ≤ ·) draws).length_eq
  cases hs : List.insertionSort (· ≤ ·) draws with
  | nil => rw [hs] at hlen; simpa using hlen
  | cons x xs =>
    rw [hs] at hlen
    simpa [diffsFrom_length] using hlen

theorem slabStarts_head_ge (address : Nat) (slabs : List (Nat × Nat)) (gaps : List Nat) :
    ∀ y ∈ (slabStarts address slabs gaps).head?, address ≤ y := by
  cases slabs with
  | nil => simp [slabStarts]
  | cons s rest =>
    obtain ⟨al, sz⟩ := s
    cases gaps with
    | nil => simp [slabStarts]
    | cons g gs =>
      intro y hy
      simp only [slabStarts, List.head?_cons, Option.mem_def, Option.some.injEq] at hy
      subst hy
      exact Nat.le_trans (Nat.le_add_right _ _) (Common.le_AlignUp _ _)

theorem slabRegions_head_ge (address : Nat) (slabs : List (Nat × Nat)) (gaps : List Nat) :
    ∀ y ∈ (slabRegions address slabs gaps).head?, address ≤ y.1 := by
  cases slabs with
  | nil => simp [slabRegions]
  | cons s rest =>
    obtain ⟨al, sz⟩ := s
    cases gaps with
    | nil => simp [slabRegions]
    | cons g gs =>
      intro y hy
      simp only [slabRegions, List.head?_cons, Option.mem_def, Option.some.injEq] at hy
      subst hy
      exact Nat.le_trans (Nat.le_add_right _ _) (Common.le_AlignUp _ _)

theorem slabRegions_chain (slabs : List (Nat × Nat)) :
    ∀ (address : Nat) (gaps : List Nat),
      List.Chain' (fun a b : Nat × Nat => a.1 + a.2 ≤ b.1)
        (slabRegions address slabs gaps) := by
  induction slabs with
  | nil => intro address gaps; simp [slabRegions]
  | cons s rest ih =>
    intro address gaps
    obtain ⟨al, sz⟩ := s
    cases gaps with
    | nil => simp [slabRegions]
    | cons g gs =>
      simp only [slabRegions]
      refine List.chain'_cons'.mpr ⟨?_, ih _ _⟩
      intro y hy
      exact slabRegions_head_ge _ rest gs y hy

theorem slabStarts_chain_lt (slabs : List (Nat × Nat)) :
    ∀ (address : Nat) (gaps : List Nat), (∀ s ∈ slabs, 0 < s.2) →
      List.Chain' (· < ·) (slabStarts address slabs gaps) := by
  induction slabs with
  | nil => intro address gaps _; simp [slabStarts]
  | cons s rest ih =>
    intro address gaps hsz
    obtain ⟨al, sz⟩ := s
    cases gaps with
    | nil => simp [slabStarts]
    | cons g gs =>
      simp only [slabStarts]
      refine List.chain'_cons'.mpr ⟨?_, ih _ _ (fun t ht => hsz t (List.mem_cons_of_mem _ ht))⟩
      intro y hy
      have h1 := slabStarts_head_ge (Common.AlignUp (address + g) al + sz) rest gs y hy
      have h2 : 0 < sz := hsz (al, sz) (List.mem_cons_self _ _)
      omega

theorem slabStarts_length (slabs : List (Nat × Nat)) :
    ∀ (address : Nat) (gaps : List Nat), gaps.length = slabs.length →
      (slabStarts address slabs gaps).length = slabs.length := by
  induction slabs with
  | nil => intro address gaps _; cases gaps <;> simp [slabStarts]
  | cons s rest ih =>
    intro address gaps hlen
    obtain ⟨al, sz⟩ := s
    cases gaps with
    | nil => simp at hlen
    | cons g gs =>
      simp only [slabStarts, List.length_cons] at hlen ⊢
      rw [ih _ gs (by omega)]

end Kernel.Init

/-- C5: the slab-layout randomization draws one random gap value per slab from
`[0, total gap budget]` (inclusive — the documented off-by-one), sorts them
ascending, and uses successive differences as the actual inter-slab padding;
consequently, for every sequence of draws in that range, the sum of all
inter-slab gaps never exceeds the total budget and the computed slab start
offsets (one per slab, each slab a positive-size region) are strictly
increasing, the consecutive regions not even abutting into one another
(`start + size ≤ next start`), so no two slab regions overlap.  The uniform
distribution of the draws is the external RNG's contract
(`KSystemControl::GenerateRandomRange`), modelled by quantifying over every
draw sequence within the inclusive range. -/
theorem C5_slab_gap_budget_disjoint
    (budget address : Nat) (draws : List Nat) (slabs : List (Nat × Nat))
    (hdraw : ∀ d ∈ draws, d ≤ budget)
    (hsz : ∀ s ∈ slabs, 0 < s.2)
    (hlen : draws.length = slabs.length) :
    (Kernel.Init.interSlabGaps draws).sum ≤ budget ∧
    List.Chain' (· < ·)
      (Kernel.Init.slabStarts address slabs (Kernel.Init.interSlabGaps draws)) ∧
    List.Chain' (fun a b : Nat × Nat => a.1 + a.2 ≤ b.1)
      (Kernel.Init.slabRegions address slabs (Kernel.Init.interSlabGaps draws)) ∧
    (Kernel.Init.slabStarts address slabs (Kernel.Init.interSlabGaps draws)).length
      = slabs.length := by
  refine ⟨Kernel.Init.interSlabGaps_sum_le budget draws hdraw,
    Kernel.Init.slabStarts_chain_lt slabs address _ hsz,
    Kernel.Init.slabRegions_chain slabs address _,
    Kernel.Init.slabStarts_length slabs address _ (by rw [Kernel.Init.interSlabGaps_length, hlen])⟩

/-- Witness for C5: three slabs of sizes 16, 32 and 8 at alignments 8, 8 and
4, gap draws `[3, 1, 2]` within the inclusive budget 5. -/
theorem C5_witness_slab_gap_budget_disjoint :
    (Kernel.Init.interSlabGaps [3, 1, 2]).sum ≤ 5 ∧
    List.Chain' (· < ·)
      (Kernel.Init.slabStarts 100 [(8, 16), (8, 32), (4, 8)]
        (Kernel.Init.interSlabGaps [3, 1, 2])) ∧
    List.Chain' (fun a b : Nat × Nat => a.1 + a.2 ≤ b.1)
      (Kernel.Init.slabRegions 100 [(8, 16), (8, 32), (4, 8)]
        (Kernel.Init.interSlabGaps [3, 1, 2])) ∧
    (Kernel.Init.slabStarts 100 [(8, 16), (8, 32), (4, 8)]
      (Kernel.Init.interSlabGaps [3, 1, 2])).length = [(8, 16), (8, 32), (4, 8)].length :=
  C5_slab_gap_budget_disjoint 5 100 [3, 1, 2] [(8, 16), (8, 32), (4, 8)]
    (by decide) (by decide) (by decide)

/-- C9: for every `KAutoObject` and target type `T`, `DynamicCast<T*>` returns
the object pointer cast to `T*` exactly when the object's class token bitwise
contains `T`'s static token (`object_token | T_token == object_token`), and
returns `nullptr` on mismatch. -/
theorem C9_dynamic_cast_token (o : Kernel.KAutoObject) (t : Kernel.TypeObj) :
    (o.DynamicCast t = some o ↔ o.class_token ||| t.m_class_token = o.class_token) ∧
    (o.class_token ||| t.m_class_token ≠ o.class_token → o.DynamicCast t = none) := by
  constructor
  · constructor
    · intro h
      by_contra hne
      simp [Kernel.KAutoObject.DynamicCast, Kernel.KAutoObject.IsDerivedFrom,
        Kernel.TypeObj.IsDerivedFrom, Kernel.KAutoObject.GetTypeObj, hne] at h
    · intro h
      simp [Kernel.KAutoObject.DynamicCast, Kernel.KAutoObject.IsDerivedFrom,
        Kernel.TypeObj.IsDerivedFrom, Kernel.KAutoObject.GetTypeObj, h]
  · intro h
    simp [Kernel.KAutoObject.DynamicCast, Kernel.KAutoObject.IsDerivedFrom,
      Kernel.TypeObj.IsDerivedFrom, Kernel.KAutoObject.GetTypeObj, h]

/-- Witness for C9 at a concrete object and two concrete target tokens: token
`3` contains token `1` (cast succeeds, returning the object) and does not
contain token `4` (cast returns null). -/
theorem C9_witness_dynamic_cast_token :
    Kernel.KAutoObject.DynamicCast ⟨1, 3, 0⟩ ⟨1⟩ = some ⟨1, 3, 0⟩ ∧
    Kernel.KAutoObject.DynamicCast ⟨1, 3, 0⟩ ⟨4⟩ = none :=
  ⟨(C9_dynamic_cast_token ⟨1, 3, 0⟩ ⟨1⟩).1.mpr (by decide),
   (C9_dynamic_cast_token ⟨1, 3, 0⟩ ⟨4⟩).2 (by decide)⟩

/-- Counterexample to C1 as stated: `Open()` does not succeed on every object
with a nonzero count.  At the `u32` saturation value `2^32 - 1` the loop
body's `ASSERT(cur_ref_count < cur_ref_count + 1)` (`k_auto_object.h` line
154) compares against the wrapped sum `0` and fails fatally, so `Open` on
this nonzero-count object is a fatal assertion rather than a success. -/
theorem C1_counterexample_open_saturation :
    Kernel.KAutoObject.Open ⟨2 ^ 32 - 1, 0, 0⟩ = none := by
  decide

/-- C1 (amended): `Open()` atomically increments the reference count and
succeeds if and only if the count is currently nonzero **and below the `u32`
saturation value `2^32 - 1`** (at the saturation value the overflow assertion
is fatal; `Open` on a zero-count object fails without change); `Close()`
atomically decrements the count, asserting it was positive, and calls
`Destroy()` exactly when the post-decrement count is zero.  Hence on an
object holding `n` references (`n` outstanding successful `Open`s), the
`n`-th `Close` triggers exactly one `Destroy` with none before it, and any
further `Open` on that object fails. -/
theorem C1_amended_open_close_destroy :
    (∀ o : Kernel.KAutoObject, o.m_ref_count = 0 → o.Open = some (o, false)) ∧
    (∀ o : Kernel.KAutoObject, 0 < o.m_ref_count → o.m_ref_count < 2 ^ 32 - 1 →
      o.Open = some ({ o with m_ref_count := o.m_ref_count + 1 }, true)) ∧
    (∀ o : Kernel.KAutoObject, o.m_ref_count = 0 → o.Close = none) ∧
    (∀ o : Kernel.KAutoObject, 0 < o.m_ref_count →
      o.Close = some { o with
        m_ref_count := o.m_ref_count - 1,
        destroy_count :=
          if o.m_ref_count - 1 = 0 then o.destroy_count + 1 else o.destroy_count }) ∧
    (∀ (o : Kernel.KAutoObject) (n : Nat), o.m_ref_count = n → 0 < n →
      (∀ k, k < n →
        Kernel.KAutoObject.closeN k o = some { o with m_ref_count := n - k }) ∧
      Kernel.KAutoObject.closeN n o
        = some { o with m_ref_count := 0, destroy_count := o.destroy_count + 1 } ∧
      Kernel.KAutoObject.Open
          { o with m_ref_count := 0, destroy_count := o.destroy_count + 1 }
        = some ({ o with m_ref_count := 0, destroy_count := o.destroy_count + 1 }, false)) := by
  refine ⟨?_, ?_, ?_, ?_, ?_⟩
  · intro o h
    simp [Kernel.KAutoObject.Open, h]
  · intro o h1 h2
    have hne : o.m_ref_count ≠ 0 := by omega
    have hne2 : o.m_ref_count ≠ 4294967295 := by omega
    simp [Kernel.KAutoObject.Open, hne, hne2]
  · intro o h
    simp [Kernel.KAutoObject.Close, h]
  · intro o h
    have hne : o.m_ref_count ≠ 0 := by omega
    simp [Kernel.KAutoObject.Close, hne]
  · intro o n hc hn
    refine ⟨?_, ?_, ?_⟩
    · intro k hk
      rw [Kernel.closeN_of_lt k o (by omega), hc]
    · exact Kernel.closeN_exact n o hc hn
    · simp [Kernel.KAutoObject.Open]

/-- Witness for C1 (amended) at a concrete object holding two references: the
first `Close` does not destroy, the second does, exactly once, and a further
`Open` fails. -/
theorem C1_witness_open_close_destroy :
    Kernel.KAutoObject.closeN 1 ⟨2, 7, 5⟩ = some ⟨1, 7, 5⟩ ∧
    Kernel.KAutoObject.closeN 2 ⟨2, 7, 5⟩ = some ⟨0, 7, 6⟩ ∧
    Kernel.KAutoObject.Open ⟨0, 7, 6⟩ = some (⟨0, 7, 6⟩, false) := by
  obtain ⟨h1, h2, h3⟩ :=
    C1_amended_open_close_destroy.2.2.2.2 ⟨2, 7, 5⟩ 2 rfl (by decide)
  exact ⟨h1 1 (by decide), h2, h3⟩

/-- C2: for every sequence of `CreateSession` calls on a port initialized
with capacity `max_sessions`: the port never reports
`num_sessions > max_sessions`; a call made when
`num_sessions == max_sessions` fails with the capacity error and leaves the
counters unchanged; a successful call increments `num_sessions` and sets
`peak_sessions = max(peak_sessions, num_sessions)`. -/
theorem C2_create_session_capacity :
    (∀ p : Kernel.KClientPort, p.num_sessions = p.max_sessions →
      p.CreateSession = none ∧ p.step = p) ∧
    (∀ p p' : Kernel.KClientPort, p.CreateSession = some p' →
      p'.num_sessions = p.num_sessions + 1 ∧
      p'.peak_sessions = max p.peak_sessions (p.num_sessions + 1) ∧
      p'.max_sessions = p.max_sessions) ∧
    (∀ max_sessions k,
      (Kernel.KClientPort.run max_sessions k).GetNumSessions ≤
        (Kernel.KClientPort.run max_sessions k).GetMaxSessions) := by
  refine ⟨?_, ?_, ?_⟩
  · intro p h
    have hnone : p.CreateSession = none := by
      simp [Kernel.KClientPort.CreateSession, h]
    exact ⟨hnone, by simp [Kernel.KClientPort.step, hnone]⟩
  · intro p p' h
    unfold Kernel.KClientPort.CreateSession at h
    by_cases hlt : p.num_sessions < p.max_sessions
    · rw [if_pos hlt] at h
      cases h
      exact ⟨rfl, rfl, rfl⟩
    · rw [if_neg hlt] at h
      cases h
  · intro m k
    obtain ⟨hmax, hnum⟩ := Kernel.run_invariant m k
    simp [Kernel.KClientPort.GetNumSessions, Kernel.KClientPort.GetMaxSessions, hmax, hnum]

/-- Witness for C2 at capacity 1: after one successful call the port is full,
the next call fails with the capacity error leaving the counters unchanged,
and the recorded counts never exceed the capacity. -/
theorem C2_witness_create_session_capacity :
    Kernel.KClientPort.CreateSession ⟨1, 1, 1⟩ = none ∧
    (Kernel.KClientPort.run 1 2).GetNumSessions ≤ (Kernel.KClientPort.run 1 2).GetMaxSessions := by
  exact ⟨(C2_create_session_capacity.1 ⟨1, 1, 1⟩ rfl).1,
    C2_create_session_capacity.2.2 1 2⟩

/-- Counterexample to C3 as stated: with a macro uploaded at entry `0xE00`,
the packet "entry write of value 10 (one parameter still to come), then N = 1
argument write of value 20 (zero remaining)" executes the macro with the two
values `[10, 20]` — the entry write's own value is accumulated too — not with
"exactly the N accumulated values" `[20]`. -/
theorem C3_counterexample_param_count :
    (Tegra.Engines.Maxwell3D.runMacroCall 0xE00 10 [20] Tegra.Engines.c3Engine).map
        Tegra.Engines.Maxwell3D.executed_macro_calls
      = some [(0xE00, [10, 20])] ∧
    some [((0xE00 : Nat), [(10 : Nat), 20])] ≠ some [((0xE00 : Nat), [(20 : Nat)])] :=
  ⟨by decide, by decide⟩

/-- C3 (amended): a register write at or above the macro threshold when no
macro is accumulating must target an even entry register (an odd argument
register is rejected by a fatal assertion).  Writing the even entry register
followed by `N` argument writes, the `N`-th signaling zero remaining
parameters, triggers exactly one macro execution with exactly `N + 1` values
— the entry write's value followed by the `N` argument values, in order —
and the engine is reset to Idle (`executing_macro == 0`) before the macro
body runs. -/
theorem C3_amended_macro_framing
    (m : Tegra.Engines.Maxwell3D) (e v0 : Nat) (vs : List Nat) (code : List Nat)
    (h0 : m.executing_macro_reg = 0) (hp : m.macro_params = [])
    (he : Tegra.Engines.MacroRegistersStart ≤ e) (heven : e % 2 = 0)
    (hlt : e + 1 < Tegra.Engines.NUM_REGS)
    (hup : m.uploaded_macros e = some code) :
    (∀ meth v r, Tegra.Engines.MacroRegistersStart ≤ meth → meth % 2 = 1 →
      Tegra.Engines.Maxwell3D.WriteReg meth v r m = none) ∧
    Tegra.Engines.Maxwell3D.runMacroCall e v0 vs m
      = some { m with
               executing_macro_reg := 0
               macro_params := []
               executed_macro_calls := m.executed_macro_calls ++ [(e, v0 :: vs)] } := by
  constructor
  · intro meth v r hm hodd
    by_cases h1 : Tegra.Engines.NUM_REGS ≤ meth
    · exact Tegra.Engines.writeReg_oob_none m meth v r h1
    · exact Tegra.Engines.writeOddIdle_rejected m meth v r h0 hm (by omega) (by omega)
  · rw [Tegra.Engines.runMacroCall_eq]
    cases vs with
    | nil =>
      rw [List.length_nil,
        Tegra.Engines.writeEntry_immediate m e v0 code h0 he heven (by omega) hup,
        Option.some_bind]
      simp [Tegra.Engines.Maxwell3D.runArgWrites, hp]
    | cons w ws =>
      rw [List.length_cons,
        Tegra.Engines.writeEntry_start m e v0 (ws.length + 1) h0 he heven (by omega) (by omega),
        Option.some_bind,
        Tegra.Engines.runArgWrites_spec e code (w :: ws) _ (by simp) (by simp) he hlt
          (by simpa using hup)]
      simp [hp]

/-- Witness for C3 (amended) on `c3Engine`: an odd-register start is
rejected, and the packet `10; 20; 30` (entry plus two argument writes)
executes the uploaded macro exactly once with `[10, 20, 30]`. -/
theorem C3_witness_macro_framing :
    Tegra.Engines.Maxwell3D.WriteReg 0xE01 5 0 Tegra.Engines.c3Engine = none ∧
    Tegra.Engines.Maxwell3D.runMacroCall 0xE00 10 [20, 30] Tegra.Engines.c3Engine
      = some { Tegra.Engines.c3Engine with
               executing_macro_reg := 0
               macro_params := []
               executed_macro_calls := [(0xE00, [10, 20, 30])] } := by
  obtain ⟨h1, h2⟩ := C3_amended_macro_framing Tegra.Engines.c3Engine 0xE00 10 [20, 30] [1, 2]
    rfl rfl (by decide) (by decide) (by decide) (by decide)
  exact ⟨h1 0xE01 5 0 (by decide) (by decide), h2⟩

/-- Counterexample to C4 as stated: while the engine is accumulating a macro
call to entry `0xE00` (pending parameter list `[10]`), a write to a method
other than the paired argument register `0xE01` does not append its value —
it is a fatal assertion (`ASSERT(method == executing_macro + 1)`), whether
the method is another macro register (`0xE04`) or an ordinary register
(`0x100`). -/
theorem C4_counterexample_non_arg_write :
    Tegra.Engines.Maxwell3D.WriteReg 0xE04 5 1 Tegra.Engines.c4Engine = none ∧
    Tegra.Engines.Maxwell3D.WriteReg 0x100 7 1 Tegra.Engines.c4Engine = none :=
  ⟨rfl, rfl⟩

/-- C4 (amended): while a macro is accumulating (`executing_macro` nonzero),
a `WriteReg` whose method is the paired argument register
(`executing_macro + 1`) appends its value to the pending macro parameter
list (the pending list, with this value appended, being handed to the macro
interpreter when the write reports zero remaining parameters); a `WriteReg`
to any other method is a fatal assertion, not an append. -/
theorem C4_amended_arg_accumulation
    (m : Tegra.Engines.Maxwell3D) (e : Nat)
    (he : m.executing_macro_reg = e) (he0 : Tegra.Engines.MacroRegistersStart ≤ e)
    (hlt : e + 1 < Tegra.Engines.NUM_REGS) :
    (∀ v r, r ≠ 0 →
      Tegra.Engines.Maxwell3D.WriteReg (e + 1) v r m
        = some { m with macro_params := m.macro_params ++ [v] }) ∧
    (∀ v code, m.uploaded_macros e = some code →
      Tegra.Engines.Maxwell3D.WriteReg (e + 1) v 0 m
        = some { m with
                 executing_macro_reg := 0
                 macro_params := []
                 executed_macro_calls :=
                   m.executed_macro_calls ++ [(e, m.macro_params ++ [v])] }) ∧
    (∀ meth v r, meth ≠ e + 1 → Tegra.Engines.Maxwell3D.WriteReg meth v r m = none) := by
  refine ⟨?_, ?_, ?_⟩
  · intro v r hr
    exact Tegra.Engines.writeArg_append m e v r he
      (Tegra.Engines.MacroRegistersStart_pos e he0) (Nat.le_succ_of_le he0) hlt hr
  · intro v code hup
    exact Tegra.Engines.writeArg_zero_flush m e v code he
      (Tegra.Engines.MacroRegistersStart_pos e he0) (Nat.le_succ_of_le he0) hlt hup
  · intro meth v r hne
    refine Tegra.Engines.writeOther_rejected m meth v r ?_ ?_
    · rw [he]
      exact Tegra.Engines.MacroRegistersStart_pos e he0
    · rw [he]
      exact hne

/-- Witness for C4 (amended) on `c4WitEngine` (accumulating to entry
`0xE02`, pending `[1, 2]`): an argument write with parameters remaining
appends, the zero-remaining argument write flushes `[1, 2, 9]` to the macro,
and a write to any other method (here `0xE00`) is rejected. -/
theorem C4_witness_arg_accumulation :
    Tegra.Engines.Maxwell3D.WriteReg 0xE03 9 3 Tegra.Engines.c4WitEngine
      = some { Tegra.Engines.c4WitEngine with macro_params := [1, 2, 9] } ∧
    Tegra.Engines.Maxwell3D.WriteReg 0xE03 9 0 Tegra.Engines.c4WitEngine
      = some { Tegra.Engines.c4WitEngine with
               executing_macro_reg := 0
               macro_params := []
               executed_macro_calls := [(0xE02, [1, 2, 9])] } ∧
    Tegra.Engines.Maxwell3D.WriteReg 0xE00 9 9 Tegra.Engines.c4WitEngine = none := by
  obtain ⟨h1, h2, h3⟩ := C4_amended_arg_accumulation Tegra.Engines.c4WitEngine 0xE02
    rfl (by decide) (by decide)
  exact ⟨h1 9 3 (by decide), h2 9 [] rfl, h3 0xE00 9 9 (by decide)⟩

/-- C10: a `WriteReg` at or above the macro threshold (`0xE00`) leaves the
register file and the named register groups completely unchanged and does
not notify the rasterizer of any register change (nor touch guest memory,
the address space, or the macro store) — only the macro accumulation state
(`executing_macro`, `macro_params`) and the instrumented interpreter calls
change; a successful `WriteReg` below the threshold stores the value in the
register file and notifies the rasterizer, leaving the macro accumulation
state untouched. -/
theorem C10_macro_write_frame :
    (∀ (m m' : Tegra.Engines.Maxwell3D) (method value r : Nat),
      Tegra.Engines.MacroRegistersStart ≤ method →
      Tegra.Engines.Maxwell3D.WriteReg method value r m = some m' →
      m'.reg_array = m.reg_array ∧ m'.notified_methods = m.notified_methods ∧
      m'.const_buffer = m.const_buffer ∧ m'.mem = m.mem ∧
      m'.memory_manager = m.memory_manager ∧ m'.uploaded_macros = m.uploaded_macros) ∧
    (∀ (m m' : Tegra.Engines.Maxwell3D) (method value r : Nat),
      method < Tegra.Engines.MacroRegistersStart →
      Tegra.Engines.Maxwell3D.WriteReg method value r m = some m' →
      m'.reg_array method = value ∧
      m'.notified_methods = m.notified_methods ++ [method] ∧
      m'.executing_macro_reg = m.executing_macro_reg ∧
      m'.macro_params = m.macro_params ∧
      m'.executed_macro_calls = m.executed_macro_calls) := by
  constructor
  · intro m m' method value r hm h
    have hN : method < Tegra.Engines.NUM_REGS := by
      by_contra hN
      rw [Tegra.Engines.writeReg_oob_none m method value r (by omega)] at h
      exact Option.noConfusion h
    by_cases h0 : m.executing_macro_reg = 0
    · by_cases hodd : method % 2 = 0
      · by_cases hr : r = 0
        · subst hr
          cases hup : m.uploaded_macros method with
          | none =>
            rw [Tegra.Engines.writeEntryNoMacro_none m method value h0 hm hodd hN hup] at h
            exact Option.noConfusion h
          | some code =>
            rw [Tegra.Engines.writeEntry_immediate m method value code h0 hm hodd hN hup] at h
            injection h with h
            subst h
            exact ⟨rfl, rfl, rfl, rfl, rfl, rfl⟩
        · rw [Tegra.Engines.writeEntry_start m method value r h0 hm hodd hN hr] at h
          injection h with h
          subst h
          exact ⟨rfl, rfl, rfl, rfl, rfl, rfl⟩
      · rw [Tegra.Engines.writeOddIdle_rejected m method value r h0 hm hodd hN] at h
        exact Option.noConfusion h
    · by_cases harg : method = m.executing_macro_reg + 1
      · obtain ⟨e, he⟩ : ∃ e, m.executing_macro_reg = e := ⟨_, rfl⟩
        rw [he] at harg h0
        subst harg
        by_cases hr : r = 0
        · subst hr
          cases hup : m.uploaded_macros e with
          | none =>
            rw [Tegra.Engines.writeArgNoMacro_none m e value he h0 hm hN hup] at h
            exact Option.noConfusion h
          | some code =>
            rw [Tegra.Engines.writeArg_zero_flush m e value code he h0 hm hN hup] at h
            injection h with h
            subst h
            exact ⟨rfl, rfl, rfl, rfl, rfl, rfl⟩
        · rw [Tegra.Engines.writeArg_append m e value r he h0 hm hN hr] at h
          injection h with h
          subst h
          exact ⟨rfl, rfl, rfl, rfl, rfl, rfl⟩
      · rw [Tegra.Engines.writeOther_rejected m method value r h0 harg] at h
        exact Option.noConfusion h
  · intro m m' method value r hm h
    have hn3 : ¬ Tegra.Engines.MacroRegistersStart ≤ method := by
      unfold Tegra.Engines.MacroRegistersStart at hm ⊢
      omega
    simp only [Tegra.Engines.Maxwell3D.WriteReg, if_neg hn3] at h
    split at h
    · exact Option.noConfusion h
    · split at h
      · exact Option.noConfusion h
      · cases hse : Tegra.Engines.Maxwell3D.sideEffect method value
            { m with reg_array := fun i => if i = method then value else m.reg_array i } with
        | none =>
          rw [hse] at h
          exact Option.noConfusion h
        | some m2 =>
          rw [hse] at h
          obtain ⟨hra, hnm, hex, hmp, hec, hum⟩ :=
            Tegra.Engines.sideEffect_frame method value _ m2 hse
          injection h with h
          subst h
          refine ⟨?_, ?_, ?_, ?_, ?_⟩
          · rw [show (({ m2 with
                notified_methods := m2.notified_methods ++ [method] } :
                Tegra.Engines.Maxwell3D).reg_array) = m2.reg_array from rfl, hra]
            simp
          · rw [show (({ m2 with
                notified_methods := m2.notified_methods ++ [method] } :
                Tegra.Engines.Maxwell3D).notified_methods) = m2.notified_methods ++ [method]
                from rfl, hnm]
          · exact hex
          · exact hmp
          · exact hec

/-- Witness for C10 at the macro-entry write `WriteReg(0xE02, 5, 3)` on the
idle engine `c10Engine`: the register file, the notification log, the
constant-buffer group, guest memory, the address space and the macro store
are all untouched. -/
theorem C10_witness_macro_write_frame :
    Tegra.Engines.c10After.reg_array = Tegra.Engines.c10Engine.reg_array ∧
    Tegra.Engines.c10After.notified_methods = Tegra.Engines.c10Engine.notified_methods ∧
    Tegra.Engines.c10After.const_buffer = Tegra.Engines.c10Engine.const_buffer ∧
    Tegra.Engines.c10After.mem = Tegra.Engines.c10Engine.mem ∧
    Tegra.Engines.c10After.memory_manager = Tegra.Engines.c10Engine.memory_manager ∧
    Tegra.Engines.c10After.uploaded_macros = Tegra.Engines.c10Engine.uploaded_macros :=
  C10_macro_write_frame.1 Tegra.Engines.c10Engine Tegra.Engines.c10After 0xE02 5 3
    (by decide) rfl

/-- C7: each constant-buffer data write stores its 4-byte value at the
current `cb_pos` cursor of the bound buffer after GPU-to-CPU address
translation and then advances `cb_pos` by exactly 4; a write for which
`cb_pos + 4` would exceed the declared `cb_size` fails an assertion.  In the
end-to-end scenario (`c7Engine`): a buffer of size `0x40` bound at GPU
address `0x10000` (host `0x5000`), 16 sequential writes of `c7Values` all
succeed, reading the buffer back at the translated address returns the 16
values in write order, the cursor ends at `0x40`, and the 17th write
asserts. -/
theorem C7_cb_data_write_contract :
    (∀ (m : Tegra.Engines.Maxwell3D) (value address : Nat),
      m.BufferAddress ≠ 0 →
      m.const_buffer.cb_pos + 4 ≤ m.const_buffer.cb_size →
      m.memory_manager.GpuToCpuAddress (m.BufferAddress + m.const_buffer.cb_pos)
        = some (some address) →
      Tegra.Engines.Maxwell3D.ProcessCBData value m
        = some { m with
                 mem := fun x => if x = address then value else m.mem x
                 const_buffer :=
                   { m.const_buffer with cb_pos := m.const_buffer.cb_pos + 4 } }) ∧
    (∀ (m : Tegra.Engines.Maxwell3D) (value : Nat),
      m.const_buffer.cb_size < m.const_buffer.cb_pos + 4 →
      Tegra.Engines.Maxwell3D.ProcessCBData value m = none) ∧
    Tegra.Engines.c7Final.isSome = true ∧
    Tegra.Engines.c7Final.map (fun m => m.const_buffer.cb_pos) = some 0x40 ∧
    Tegra.Engines.c7Final.map
        (fun m => (List.range 16).map (fun k => m.mem (0x5000 + 4 * k)))
      = some Tegra.Engines.c7Values ∧
    (Tegra.Engines.c7Final.bind (Tegra.Engines.Maxwell3D.ProcessCBData 999)).isNone = true := by
  refine ⟨?_, ?_, by decide, by decide, by decide, by decide⟩
  · intro m value address hba hsz htr
    simp only [Tegra.Engines.Maxwell3D.ProcessCBData, if_neg hba,
      if_neg (not_not_intro hsz), htr]
  · intro m value h
    have hsz : ¬ m.const_buffer.cb_pos + 4 ≤ m.const_buffer.cb_size := by omega
    by_cases hba : m.BufferAddress = 0 <;>
      simp [Tegra.Engines.Maxwell3D.ProcessCBData, hba, hsz]

/-- Witness for C7 on concrete engines: a write at cursor 8 of the bound
`0x40`-byte buffer stores the value at host address `0x5008` and advances
the cursor to 12; a write at cursor `0x3E` asserts. -/
theorem C7_witness_cb_data_write :
    Tegra.Engines.Maxwell3D.ProcessCBData 42 Tegra.Engines.c7WitEngine
      = some { Tegra.Engines.c7WitEngine with
               mem := fun x => if x = 0x5008 then 42 else Tegra.Engines.c7WitEngine.mem x
               const_buffer :=
                 { Tegra.Engines.c7WitEngine.const_buffer with cb_pos := 12 } } ∧
    Tegra.Engines.Maxwell3D.ProcessCBData 7 Tegra.Engines.c7BadEngine = none := by
  constructor
  · exact C7_cb_data_write_contract.1 Tegra.Engines.c7WitEngine 42 0x5008
      (by decide) (by decide) (by decide)
  · exact C7_cb_data_write_contract.2.1 Tegra.Engines.c7BadEngine 7 (by decide)

/-- Counterexample to C6 as stated: on a fresh address space,
`MapBufferEx(0xFFFFFFFFFFFFFFFE, 0x10000)` succeeds (returning GPU base `0`),
but the stored page base collides with the in-band
`PageStatus::Allocated` sentinel, so `GpuToCpuAddress(gpu_addr + 0)` returns
the empty optional instead of `host_addr + 0` as the claim requires. -/
theorem C6_counterexample_sentinel_collision :
    Tegra.c6CexMapped.map Prod.fst = some 0 ∧
    Tegra.c6CexMapped.map (fun p => p.2.GpuToCpuAddress (p.1 + 0)) = some (some none) ∧
    some (none : Option Nat) ≠ some (some ((2 ^ 64 - 2) + 0)) :=
  ⟨by decide, by decide, by decide⟩

/-- C6 (amended): for any successful `MapBufferEx(host_addr, size)` returning
`gpu_addr`, **provided `host_addr + size ≤ 0xFFFFFFFFFFFFFFFE`** (so that no
stored page base collides with the reserved in-band `Unmapped`/`Allocated`
sentinel encodings or wraps around `u64`), and every offset `k < size`:
`GpuToCpuAddress(gpu_addr + k)` equals `host_addr + k`, and the result vector
of `CpuToGpuAddress(host_addr + k)` contains `gpu_addr + k`. -/
theorem C6_amended_map_roundtrip
    (mm mm' : Tegra.MemoryManager) (cpu_addr size gpu_addr k : Nat)
    (hbound : cpu_addr + size ≤ Tegra.PageAllocated)
    (hmap : Tegra.MemoryManager.MapBufferEx cpu_addr size mm = some (gpu_addr, mm'))
    (hk : k < size) :
    mm'.GpuToCpuAddress (gpu_addr + k) = some (some (cpu_addr + k)) ∧
    (gpu_addr + k) ∈ mm'.CpuToGpuAddress (cpu_addr + k) := by
  have hPSpos := Tegra.PAGE_SIZE_pos
  have hlit : (2 : Nat) ^ 64 = 18446744073709551616 := by norm_num
  have hPA : Tegra.PageAllocated = 18446744073709551614 := by decide
  have hPU : Tegra.PageUnmapped = 18446744073709551615 := by decide
  have hMA : Tegra.MAX_ADDRESS + Tegra.PAGE_SIZE = 1099511693312 := by decide
  rw [hPA] at hbound
  -- unpack the successful MapBufferEx
  rw [Tegra.MapBufferEx_eq] at hmap
  cases hfind : mm.FindFreeBlock size Tegra.PAGE_SIZE with
  | none =>
    rw [hfind] at hmap
    simp at hmap
  | some g =>
    rw [hfind, Option.some_bind] at hmap
    cases hmp : Tegra.MemoryManager.mapPages cpu_addr g 0 (Tegra.numPages size) mm with
    | none =>
      rw [hmp] at hmap
      simp at hmap
    | some mmP =>
      rw [hmp, Option.map_some'] at hmap
      injection hmap with hmap
      have hg : g = gpu_addr := congrArg Prod.fst hmap
      have hmm' : ({ mmP with mapped_regions :=
          mmP.mapped_regions ++ [⟨cpu_addr, g, size⟩] } : Tegra.MemoryManager) = mm' :=
        congrArg Prod.snd hmap
      subst hg
      subst hmm'
      -- alignment and bound of the found base
      have halignval :
          (Tegra.PAGE_SIZE + Tegra.PAGE_MASK) / Tegra.PAGE_SIZE * Tegra.PAGE_SIZE
            = Tegra.PAGE_SIZE := by decide
      unfold Tegra.MemoryManager.FindFreeBlock at hfind
      rw [halignval] at hfind
      obtain ⟨hal, hbound_g⟩ := Tegra.FindFreeBlockAux_spec mm size Tegra.FindFreeBlockFuel
        0 0 g (Nat.zero_mod _) (Nat.zero_mod _) hfind
      rw [hMA] at hbound_g
      -- the mapped page contents
      obtain ⟨hmreg, _, hrange⟩ :=
        Tegra.mapPages_spec cpu_addr g (Tegra.numPages size) 0 mm mmP hmp
      obtain ⟨q, hq⟩ : Tegra.PAGE_SIZE ∣ g := Nat.dvd_of_mod_eq_zero hal
      have hgq : g / Tegra.PAGE_SIZE = q := by
        rw [hq]
        exact Nat.mul_div_cancel_left q hPSpos
      have hdivk : (g + k) / Tegra.PAGE_SIZE
          = g / Tegra.PAGE_SIZE + k / Tegra.PAGE_SIZE := by
        rw [hq, Nat.mul_add_div hPSpos, Nat.mul_div_cancel_left q hPSpos]
      have hmodk : (g + k) % Tegra.PAGE_SIZE = k % Tegra.PAGE_SIZE := by
        rw [hq, Nat.add_comm]
        exact Nat.add_mul_mod_self_left k Tegra.PAGE_SIZE q
      -- the page of offset k is inside the walked range
      have hnum : Tegra.numPages size = (size - 1) / Tegra.PAGE_SIZE + 1 := by
        unfold Tegra.numPages
        have h3 : size + Tegra.PAGE_SIZE - 1 = (size - 1) + Tegra.PAGE_SIZE := by omega
        rw [h3, Nat.add_div_right _ hPSpos]
      have hjlt : k / Tegra.PAGE_SIZE < Tegra.numPages size := by
        have h4 : k / Tegra.PAGE_SIZE ≤ (size - 1) / Tegra.PAGE_SIZE :=
          Nat.div_le_div_right (by omega)
        omega
      have hmul_le : k / Tegra.PAGE_SIZE * Tegra.PAGE_SIZE ≤ k :=
        Nat.div_mul_le_self k _
      have hslot := hrange (k / Tegra.PAGE_SIZE) hjlt
      rw [Nat.add_zero, Nat.add_zero] at hslot
      have hbase_lt : cpu_addr + k / Tegra.PAGE_SIZE * Tegra.PAGE_SIZE
          < 18446744073709551614 := by omega
      have hslot2 : mmP.page_table ((g + k) / Tegra.PAGE_SIZE)
          = cpu_addr + k / Tegra.PAGE_SIZE * Tegra.PAGE_SIZE := by
        rw [hdivk, hslot, hlit]
        omega
      constructor
      · -- GpuToCpuAddress round-trip
        unfold Tegra.MemoryManager.GpuToCpuAddress Tegra.MemoryManager.PageSlot
        have hproj : ({ mmP with mapped_regions :=
            mmP.mapped_regions ++ [⟨cpu_addr, g, size⟩] } :
              Tegra.MemoryManager).page_table = mmP.page_table := rfl
        rw [hproj, hslot2]
        rw [if_neg (by rw [hPU]; omega), if_neg (by rw [hPA]; omega)]
        have hk2 : k / Tegra.PAGE_SIZE * Tegra.PAGE_SIZE + k % Tegra.PAGE_SIZE = k := by
          rw [Nat.mul_comm]
          exact Nat.div_add_mod k Tegra.PAGE_SIZE
        rw [hmodk]
        have hfin : cpu_addr + k / Tegra.PAGE_SIZE * Tegra.PAGE_SIZE
            + k % Tegra.PAGE_SIZE = cpu_addr + k := by omega
        rw [Nat.add_assoc, hk2, Nat.mod_eq_of_lt (by omega)]
      · -- CpuToGpuAddress contains the GPU address
        unfold Tegra.MemoryManager.CpuToGpuAddress
        have hproj : ({ mmP with mapped_regions :=
            mmP.mapped_regions ++ [⟨cpu_addr, g, size⟩] } :
              Tegra.MemoryManager).mapped_regions
            = mmP.mapped_regions ++ [⟨cpu_addr, g, size⟩] := rfl
        rw [hproj, List.filterMap_append]
        apply List.mem_append.mpr
        right
        have hmod_cs : (cpu_addr + size) % 2 ^ 64 = cpu_addr + size :=
          Nat.mod_eq_of_lt (by omega)
        have hmod_gk : (g + (cpu_addr + k - cpu_addr)) % 2 ^ 64 = g + k := by
          rw [Nat.add_sub_cancel_left]
          exact Nat.mod_eq_of_lt (by omega)
        simp only [List.filterMap_cons, List.filterMap_nil, hmod_cs]
        rw [if_pos ⟨Nat.le_add_right _ _, by omega⟩]
        rw [hmod_gk]
        exact List.mem_singleton.mpr rfl

/-- Witness for C6 (amended): mapping `0x10000` bytes of host base `0x5000`
into a fresh address space yields GPU base `0`; at offset `k = 3` the
GPU-to-CPU translation returns `0x5003` and the CPU-to-GPU reverse lookup
contains GPU address `3`. -/
theorem C6_witness_map_roundtrip :
    Tegra.MemoryManager.GpuToCpuAddress Tegra.c6WitMM (0 + 3) = some (some (0x5000 + 3)) ∧
    (0 + 3) ∈ Tegra.MemoryManager.CpuToGpuAddress Tegra.c6WitMM (0x5000 + 3) :=
  C6_amended_map_roundtrip Tegra.MemoryManager.init Tegra.c6WitMM 0x5000 0x10000 0 3
    (by decide) rfl (by decide)

/-- C8: starting from a fresh `MemoryManager` address space, two successive
`AllocateSpace(0x10000, 16)` calls both succeed, returning bases `0` and
`0x10000`; the ranges `[0, 0x10000)` and `[0x10000, 0x20000)` are disjoint
(the first ends where the second begins or later ranges do not reach back),
and both bases are page-aligned. -/
theorem C8_two_allocations_disjoint_page_aligned :
    Tegra.c8First.map Prod.fst = some 0 ∧
    Tegra.c8Second.map Prod.fst = some 0x10000 ∧
    ((0 : Nat) + 0x10000 ≤ 0x10000 ∨ (0x10000 : Nat) + 0x10000 ≤ 0) ∧
    (0 : Nat) % Tegra.PAGE_SIZE = 0 ∧ (0x10000 : Nat) % Tegra.PAGE_SIZE = 0 :=
  ⟨by decide, by decide, by decide, by decide, by decide⟩

